import Mathlib

/-!
# Health Monitor System — verification of the dashboard controller

Shallow embedding of `src/frontend/script.js` (the dashboard controller of
the health-monitor system) together with spec-modelled definitions for the
server-side Alarm Engine and Aggregation Store, whose code is not part of
the frontend sources.  JavaScript numbers are modelled as exact rationals
(`ℚ`); JavaScript `null`/absent fields as `Option`.
-/

namespace HealthMonitor

/-! ## Vital ranges and card updates (script.js `RANGE`, `updateVital`) -/

/-- A configured vital range, from the `RANGE` table in script.js. -/
structure VitalRange where
  min : ℚ
  max : ℚ
deriving DecidableEq

/-- The three configured ranges (script.js lines 67–71). -/
structure RangeTable where
  hr : VitalRange
  spo2 : VitalRange
  temp : VitalRange

/-- `RANGE = { hr: {min:60,max:100}, spo2: {min:95,max:100}, temp: {min:36,max:38} }`. -/
def RANGE : RangeTable :=
  { hr := ⟨60, 100⟩, spo2 := ⟨95, 100⟩, temp := ⟨36, 38⟩ }

/-- JavaScript relational operators coerce `null` to `0`; an absent vital
value therefore compares as `0` in `updateVital`. -/
def jsCoerce (raw : Option ℚ) : ℚ := raw.getD 0

/-- Text shown in a vital card: `dec > 0 && raw != null ? raw.toFixed(dec)
: (raw ?? "--")`.  The numeral formatting of a present value is abstracted
as Lean's `toString`; no claim depends on the digits of a present value,
only on the `null` branch, which the source renders as the literal `"--"`. -/
def vitalText (raw : Option ℚ) (dec : ℕ) : String :=
  match raw with
  | none => "--"
  | some v => if 0 < dec then toString v else toString v

/-- Result of one `updateVital` call: the card text, which of the two status
classes the value element carries, whether the bar is marked `danger`, and
the bar width percentage. -/
structure VitalView where
  text : String
  normal : Bool
  danger : Bool
  barDanger : Bool
  pct : ℚ
deriving DecidableEq

/-- `updateVital(valEl, barEl, raw, range, dec)` (script.js lines 282–295):
`ok = raw >= range.min && raw <= range.max`; the value element gets class
`normal` when `ok` and `danger` otherwise; the bar gets `danger` exactly
when `!ok`; the width is `min(100, max(0, (raw-min)/(max-min)*100))`. -/
def updateVital (raw : Option ℚ) (range : VitalRange) (dec : ℕ) : VitalView :=
  let n := jsCoerce raw
  let ok := decide (range.min ≤ n) && decide (n ≤ range.max)
  { text := vitalText raw dec
    normal := ok
    danger := !ok
    barDanger := !ok
    pct := min 100 (max 0 ((n - range.min) / (range.max - range.min) * 100)) }

lemma updateVital_normal_iff (raw : Option ℚ) (r : VitalRange) (dec : ℕ) :
    (updateVital raw r dec).normal = true ↔ r.min ≤ jsCoerce raw ∧ jsCoerce raw ≤ r.max := by
  simp [updateVital]

lemma updateVital_danger_iff (raw : Option ℚ) (r : VitalRange) (dec : ℕ) :
    (updateVital raw r dec).danger = true ↔ ¬ (r.min ≤ jsCoerce raw ∧ jsCoerce raw ≤ r.max) := by
  simp [updateVital, not_and_or, Decidable.not_and_iff_or_not]
  constructor
  · rintro (h | h) hle
    · exact absurd hle (not_le.mpr h)
    · exact h
  · intro h
    rcases le_or_lt r.min (jsCoerce raw) with hle | hlt
    · exact Or.inr (h hle)
    · exact Or.inl hlt

/-- C1: for every vital value and each configured range, `updateVital`
classifies the value as normal exactly when it lies inside the inclusive
range, so both boundary values are normal and everything outside is
abnormal (`danger`). -/
theorem updateVital_classification (v : ℚ) :
    ((updateVital (some v) RANGE.hr 0).normal = true ↔ 60 ≤ v ∧ v ≤ 100) ∧
    ((updateVital (some v) RANGE.spo2 0).normal = true ↔ 95 ≤ v ∧ v ≤ 100) ∧
    ((updateVital (some v) RANGE.temp 1).normal = true ↔ 36 ≤ v ∧ v ≤ 38) ∧
    ((updateVital (some v) RANGE.hr 0).danger = true ↔ ¬ (60 ≤ v ∧ v ≤ 100)) ∧
    ((updateVital (some v) RANGE.spo2 0).danger = true ↔ ¬ (95 ≤ v ∧ v ≤ 100)) ∧
    ((updateVital (some v) RANGE.temp 1).danger = true ↔ ¬ (36 ≤ v ∧ v ≤ 38)) := by
  refine ⟨?_, ?_, ?_, ?_, ?_, ?_⟩
  · rw [updateVital_normal_iff]; simp [jsCoerce, RANGE]
  · rw [updateVital_normal_iff]; simp [jsCoerce, RANGE]
  · rw [updateVital_normal_iff]; simp [jsCoerce, RANGE]
  · rw [updateVital_danger_iff]; simp [jsCoerce, RANGE]
  · rw [updateVital_danger_iff]; simp [jsCoerce, RANGE]
  · rw [updateVital_danger_iff]; simp [jsCoerce, RANGE]

/-! ## Inbound message dispatch (script.js `connect` message listener) -/

/-- The three branches of the client's message listener. -/
inductive Dispatch
  | alarmOverlay
  | stopAlarm
  | vital
deriving DecidableEq

/-- The message listener (script.js lines 198–216): a parsed message whose
`type` field is `"ALARM"` triggers the medicine-alarm overlay and returns;
`"STOP_ALARM"` stops the fall alarm and returns; any other message —
including one with no `type` field — is passed to `onVitalData`. -/
def dispatch (msgType : Option String) : Dispatch :=
  if msgType = some "ALARM" then Dispatch.alarmOverlay
  else if msgType = some "STOP_ALARM" then Dispatch.stopAlarm
  else Dispatch.vital

/-- A vital-data message as consumed by `onVitalData` (script.js 267–280). -/
structure VitalMsg where
  device_id : Option String
  heart_rate : Option ℚ
  spo2 : Option ℚ
  temp : Option ℚ
  fall_detected : Option Bool

/-- `onVitalData` raises the fall overlay exactly on `d.fall_detected === true`
(strict equality: absent, `null` or non-boolean values never trigger it). -/
def onVitalDataTriggersFall (d : VitalMsg) : Bool := d.fall_detected == some true

/-- C2 counterexample: a message tagged `"FALL"` is NOT handled as an alert —
the listener has branches only for `"ALARM"` and `"STOP_ALARM"`, so a
FALL-typed envelope falls through to `onVitalData` and is processed as
vital data. -/
theorem dispatch_fall_misrouted :
    dispatch (some "FALL") = Dispatch.vital ∧
    dispatch (some "FALL") ≠ Dispatch.alarmOverlay ∧
    dispatch (some "FALL") ≠ Dispatch.stopAlarm := by
  refine ⟨rfl, ?_, ?_⟩ <;> decide

/-- C2 amended: the client dispatch recognises exactly two alert tags —
`"ALARM"` (medicine-alarm overlay) and `"STOP_ALARM"` (stop the fall
alarm); every other message, a `"FALL"`-tagged one included, is processed
as vital data, and the fall overlay is triggered from the `fall_detected`
field of vital messages instead of a FALL envelope. -/
theorem dispatch_two_alert_tags :
    (∀ t : Option String,
      (dispatch t = Dispatch.alarmOverlay ↔ t = some "ALARM") ∧
      (dispatch t = Dispatch.stopAlarm ↔ t = some "STOP_ALARM") ∧
      (dispatch t = Dispatch.vital ↔ t ≠ some "ALARM" ∧ t ≠ some "STOP_ALARM")) ∧
    (∀ d : VitalMsg, onVitalDataTriggersFall d = true ↔ d.fall_detected = some true) := by
  constructor
  · intro t
    unfold dispatch
    split_ifs with h1 h2 <;> subst_eqs <;> simp_all
  · intro d
    simp [onVitalDataTriggersFall]

/-! ## Null rendering (script.js `updateVital` text, `renderHistory` cells) -/

/-- A history-table cell (script.js 435–437): a present value is rendered
as a numeral (`toFixed(1)` for temperature, abstracted here), an absent
one as the em-dash placeholder. -/
def histCell (v : Option ℚ) : String :=
  match v with
  | some q => toString q
  | none => "—"

/-- C5 counterexample: the claim says an absent field is never classified or
styled as out of range, but `updateVital(null)` compares `null` as `0`,
which lies below every configured minimum, so the card and bar get the
`danger` styling (while the text correctly shows the `"--"` placeholder). -/
theorem updateVital_null_styled_danger :
    (updateVital none RANGE.hr 0).text = "--" ∧
    (updateVital none RANGE.hr 0).danger = true ∧
    (updateVital none RANGE.hr 0).normal = false := by
  refine ⟨rfl, ?_, ?_⟩ <;> decide

/-- C5 amended: an absent vital renders as the `"--"` placeholder on the
cards and as `"—"` in the history table — never as a zero value — but
`updateVital` styles an absent value as `danger` (out of range), because
JavaScript coerces `null` to `0`, which is below each configured minimum. -/
theorem null_renders_placeholder (dec : ℕ) :
    (updateVital none RANGE.hr dec).text = "--" ∧
    (updateVital none RANGE.spo2 dec).text = "--" ∧
    (updateVital none RANGE.temp dec).text = "--" ∧
    (updateVital none RANGE.hr dec).danger = true ∧
    (updateVital none RANGE.spo2 dec).danger = true ∧
    (updateVital none RANGE.temp dec).danger = true ∧
    histCell none = "—" := by
  exact ⟨rfl, rfl, rfl, rfl, rfl, rfl, rfl⟩

/-! ## Viewer-local UI effects (script.js alarm overlay handlers) -/

/-- One observable effect of a UI event handler. -/
inductive Effect
  | domRemoveClass (elem cls : String)
  | domAddClass (elem cls : String)
  | domSetText (elem txt : String)
  | log (level msg : String)
  | toast (msg kind : String)
  | netPost (url : String)
  | sound
deriving DecidableEq

/-- Whether an effect sends anything over the network. -/
def isNetwork : Effect → Bool
  | Effect.netPost _ => true
  | _ => false

/-- `triggerAlarmOverlay(medicine, time)` (script.js 333–339): set the
medicine label, show the overlay, beep, log. -/
def triggerAlarmOverlay (label : String) : List Effect :=
  [ Effect.domSetText "alarm-medicine-name" label
  , Effect.domAddClass "alarm-overlay" "active"
  , Effect.sound
  , Effect.log "warning" "ALARM - Time to take medicine" ]

/-- The `alarmDismiss` click handler (script.js 340–343): remove the
`active` class from the alarm overlay and add a log entry; nothing else. -/
def alarmDismissHandler : List Effect :=
  [ Effect.domRemoveClass "alarm-overlay" "active"
  , Effect.log "info" "Medicine alarm acknowledged." ]

/-- The `fallSafeBtn` click handler (script.js 322–330), for contrast: it
does POST `/reset-alarm` back to the server. -/
def fallSafeHandler : List Effect :=
  [ Effect.domRemoveClass "fall-overlay" "active"
  , Effect.log "info" "Patient confirmed safe - alarm stopped."
  , Effect.netPost "/reset-alarm" ]

/-- C6: dismissing the medicine alarm is purely viewer-local — the handler
only removes the overlay and logs; neither it nor `triggerAlarmOverlay`
performs any network send, so no acknowledgement is ever transmitted. -/
theorem alarmDismiss_local_only :
    alarmDismissHandler
      = [ Effect.domRemoveClass "alarm-overlay" "active"
        , Effect.log "info" "Medicine alarm acknowledged." ] ∧
    alarmDismissHandler.countP isNetwork = 0 ∧
    (∀ label : String, (triggerAlarmOverlay label).countP isNetwork = 0) := by
  exact ⟨rfl, rfl, fun _ => rfl⟩

/-! ## Fall-detection toggle (script.js `fallToggleCb` change handler) -/

/-- Outcome of the fall-toggle change handler: the checkbox state it leaves
behind and the effects it performed. -/
structure ToggleOutcome where
  checked : Bool
  effects : List Effect
deriving DecidableEq

/-- The `fallToggleCb` change handler (script.js 235–254).  The `change`
event fires after the browser flips the checkbox, so at entry
`checked = !previous`; the handler reads `enabled` from the checkbox and
POSTs it; on success it toasts and logs; if the fetch throws it logs the
failure and reverts the checkbox to `!enabled`. -/
def fallToggleHandler (checkedAtEntry : Bool) (fetchOk : Bool) : ToggleOutcome :=
  let enabled := checkedAtEntry
  if fetchOk then
    { checked := enabled
      effects :=
        if enabled then
          [ Effect.netPost "/toggle-fall-detection"
          , Effect.toast "Fall Detection Active" "success"
          , Effect.log "info" "Fall detection enabled." ]
        else
          [ Effect.netPost "/toggle-fall-detection"
          , Effect.toast "Fall Detection Disabled" "warning"
          , Effect.log "warning" "Fall detection disabled (maintenance mode)." ] }
  else
    { checked := !enabled
      effects := [ Effect.netPost "/toggle-fall-detection"
                 , Effect.log "danger" "Toggle failed" ] }

/-- C9: when the POST fails, the handler reverts the checkbox to its value
before the attempted toggle, so the observable toggle state is unchanged;
only a successful request leaves the new state displayed. -/
theorem fallToggle_revert_on_failure (prev : Bool) :
    (fallToggleHandler (!prev) false).checked = prev ∧
    (fallToggleHandler (!prev) true).checked = !prev := by
  cases prev <;> exact ⟨rfl, rfl⟩

/-! ## Heart-rate chart (script.js `pushChart`, `MAX_CHART_POINTS`) -/

/-- `MAX_CHART_POINTS = 40` (script.js line 63). -/
def MAX_CHART_POINTS : ℕ := 40

/-- The chart's parallel arrays: time labels and heart-rate data. -/
structure ChartState where
  labels : List String
  data : List ℚ
deriving DecidableEq

/-- `pushChart(hr)` (script.js 297–308): push the time label and the value,
then if the label array exceeds `MAX_CHART_POINTS`, `shift()` the oldest
entry off both arrays. -/
def pushChart (s : ChartState) (p : String × ℚ) : ChartState :=
  let labels := s.labels ++ [p.1]
  let data := s.data ++ [p.2]
  if MAX_CHART_POINTS < labels.length then ⟨labels.tail, data.tail⟩
  else ⟨labels, data⟩

/-- The chart starts with both arrays empty (script.js 136–137). -/
def chartInit : ChartState := ⟨[], []⟩

/-- The chart state after a sequence of pushed points. -/
def chartAfter (ps : List (String × ℚ)) : ChartState :=
  ps.foldl pushChart chartInit

lemma pushChart_drop (L : List String) (D : List ℚ) (p : String × ℚ)
    (hlen : D.length = L.length) (hle : L.length ≤ 40) :
    pushChart ⟨L, D⟩ p
      = ⟨(L ++ [p.1]).drop (L.length + 1 - 40), (D ++ [p.2]).drop (L.length + 1 - 40)⟩ := by
  simp only [pushChart, MAX_CHART_POINTS]
  split_ifs with hif
  · simp only [List.length_append, List.length_singleton] at hif
    have h1 : L.length + 1 - 40 = 1 := by omega
    rw [h1, List.drop_one, List.drop_one]
  · simp only [List.length_append, List.length_singleton] at hif
    have h0 : L.length + 1 - 40 = 0 := by omega
    rw [h0, List.drop_zero, List.drop_zero]

lemma chartFold_spec (ps : List (String × ℚ)) : ∀ (L : List String) (D : List ℚ),
    D.length = L.length → L.length ≤ 40 →
    (ps.foldl pushChart ⟨L, D⟩).labels
        = (L ++ ps.map Prod.fst).drop (L.length + ps.length - 40) ∧
    (ps.foldl pushChart ⟨L, D⟩).data
        = (D ++ ps.map Prod.snd).drop (L.length + ps.length - 40) := by
  induction ps with
  | nil =>
    intro L D hlen hle
    have h0 : L.length - 40 = 0 := by omega
    simp [h0, hlen]
  | cons p ps ih =>
    intro L D hlen hle
    rw [List.foldl_cons, pushChart_drop L D p hlen hle]
    have hLlen : ((L ++ [p.1]).drop (L.length + 1 - 40)).length
        = L.length + 1 - (L.length + 1 - 40) := by
      simp
    have hDlen : ((D ++ [p.2]).drop (L.length + 1 - 40)).length
        = L.length + 1 - (L.length + 1 - 40) := by
      simp [hlen]
    obtain ⟨ihl, ihd⟩ := ih ((L ++ [p.1]).drop (L.length + 1 - 40))
      ((D ++ [p.2]).drop (L.length + 1 - 40))
      (by rw [hLlen, hDlen]) (by rw [hLlen]; omega)
    refine ⟨?_, ?_⟩
    · rw [ihl, hLlen, ← List.drop_append_of_le_length (by simp; omega), List.drop_drop]
      congr 1
      · simp; omega
      · simp
    · rw [ihd, hLlen, ← List.drop_append_of_le_length (by simp [hlen]; omega), List.drop_drop]
      congr 1
      · simp; omega
      · simp

/-- C8: at every point the chart's label and data arrays have equal length,
never exceed `MAX_CHART_POINTS = 40` entries, and hold exactly the most
recent `min(n, 40)` pushed points in arrival order — once full, each push
drops exactly the oldest entry (FIFO). -/
theorem chartAfter_spec (ps : List (String × ℚ)) :
    (chartAfter ps).labels.length = (chartAfter ps).data.length ∧
    (chartAfter ps).labels.length = min ps.length MAX_CHART_POINTS ∧
    (chartAfter ps).labels = (ps.map Prod.fst).drop (ps.length - MAX_CHART_POINTS) ∧
    (chartAfter ps).data = (ps.map Prod.snd).drop (ps.length - MAX_CHART_POINTS) := by
  obtain ⟨hl, hd⟩ := chartFold_spec ps [] [] rfl (by simp)
  simp only [List.nil_append, List.length_nil, Nat.zero_add] at hl hd
  have hca : chartAfter ps = ps.foldl pushChart ⟨[], []⟩ := rfl
  simp only [MAX_CHART_POINTS, hca]
  refine ⟨?_, ?_, hl, hd⟩
  · rw [hl, hd]; simp
  · rw [hl]; simp; omega

/-! ## 12-hour time formatting (script.js `formatTime`, `to12Hour`) -/

/-- `String.padStart(2, "0")`: prepend zeros until the length is 2. -/
def pad2 (s : String) : String :=
  if 2 ≤ s.length then s else String.mk (List.replicate (2 - s.length) '0') ++ s

/-- `h >= 12 ? "PM" : "AM"`. -/
def ampmOf (h : ℕ) : String := if 12 ≤ h then "PM" else "AM"

/-- `h % 12 || 12`: JavaScript `||` replaces a zero remainder with 12. -/
def displayHour (h : ℕ) : ℕ := if h % 12 = 0 then 12 else h % 12

/-- `formatTime(dateObj)` (script.js 77–84) on the extracted clock fields:
hour, minute and second rendered `HH:MM:SS AM|PM`, each part padded. -/
def formatTime (h m s : ℕ) : String :=
  pad2 (toString (displayHour h)) ++ ":" ++ pad2 (toString m) ++ ":"
    ++ pad2 (toString s) ++ " " ++ ampmOf h

/-- `to12Hour(hhmm)` (script.js 95–101) after splitting on `":"`: the hour
is converted, the minute string is passed through unchanged. -/
def to12Hour (h : ℕ) (mStr : String) : String :=
  pad2 (toString (displayHour h)) ++ ":" ++ mStr ++ " " ++ ampmOf h

/-- C10: for every hour below 24 the 12-hour formatters display an hour in
1..12 (0 and 12 both as 12), the suffix is AM exactly below noon and PM
from noon on, and minutes and seconds below 60 pad to exactly two digits;
`formatTime` and `to12Hour` assemble exactly these parts. -/
theorem timeFormat_ok (h m s : ℕ) (hh : h < 24) (hm : m < 60) (hs : s < 60) :
    1 ≤ displayHour h ∧ displayHour h ≤ 12 ∧
    displayHour 0 = 12 ∧ displayHour 12 = 12 ∧
    (ampmOf h = "AM" ↔ h < 12) ∧ (ampmOf h = "PM" ↔ 12 ≤ h) ∧
    (pad2 (toString m)).length = 2 ∧ (pad2 (toString s)).length = 2 ∧
    formatTime h m s
      = pad2 (toString (displayHour h)) ++ ":" ++ pad2 (toString m) ++ ":"
          ++ pad2 (toString s) ++ " " ++ ampmOf h ∧
    to12Hour h "30" = pad2 (toString (displayHour h)) ++ ":" ++ "30" ++ " " ++ ampmOf h := by
  have hpad : ∀ x : ℕ, x < 60 → (pad2 (toString x)).length = 2 := by decide
  have hd : 1 ≤ displayHour h ∧ displayHour h ≤ 12 := by
    unfold displayHour
    split_ifs with h0
    · omega
    · have := Nat.mod_lt h (y := 12) (by omega)
      omega
  refine ⟨hd.1, hd.2, rfl, rfl, ?_, ?_, hpad m hm, hpad s hs, rfl, rfl⟩
  · unfold ampmOf
    split_ifs with h12 <;> simp <;> omega
  · unfold ampmOf
    split_ifs with h12 <;> simp <;> omega

/-- Witness for `timeFormat_ok` at midnight, minute 5, second 7. -/
theorem timeFormat_ok_witness :
    displayHour 0 = 12 ∧ (ampmOf 0 = "AM" ↔ (0:ℕ) < 12) ∧ (pad2 (toString (5:ℕ))).length = 2 := by
  obtain ⟨_, _, h1, _, h2, _, h3, _⟩ := timeFormat_ok 0 5 7 (by decide) (by decide) (by decide)
  exact ⟨h1, h2, h3⟩

/-! ## Spec-modelled Alarm Engine (server-side, not in the frontend sources) -/

/-- Alert messages the Alarm Engine can emit to viewers. -/
inductive AlertMsg
  | fall
  | stopAlarm
  | medicineAlarm (medicine time : String)
deriving DecidableEq

/-- Process-wide alarm state (spec §3 `AlarmState`). -/
structure AlarmState where
  fallActive : Bool
  maintenanceMode : Bool
deriving DecidableEq

/-- Modelled from the spec: the server-side Alarm Engine that promotes fall
signals is not part of the frontend sources.  Spec §4.3: from `Idle`, a
fall reading with maintenance mode off activates the alarm and emits one
FALL alert; while already active, or while in maintenance mode, fall
signals are evaluated but never promoted to an alarm. -/
def evalFallSignal (st : AlarmState) (fallDetected : Bool) : AlarmState × List AlertMsg :=
  if fallDetected && !st.maintenanceMode && !st.fallActive then
    ({ st with fallActive := true }, [AlertMsg.fall])
  else (st, [])

/-- Run the Alarm Engine over a sequence of fall signals, collecting every
emitted alert. -/
def runFallSignals (st : AlarmState) (signals : List Bool) : AlarmState × List AlertMsg :=
  signals.foldl (fun acc b =>
    let step := evalFallSignal acc.1 b
    (step.1, acc.2 ++ step.2)) (st, [])

lemma runFallSignals_maintenance (signals : List Bool) :
    ∀ (st : AlarmState) (acc : List AlertMsg), st.maintenanceMode = true →
      signals.foldl (fun acc b =>
          let step := evalFallSignal acc.1 b
          (step.1, acc.2 ++ step.2)) (st, acc) = (st, acc) := by
  induction signals with
  | nil => intro st acc _; rfl
  | cons b bs ih =>
    intro st acc hm
    rw [List.foldl_cons]
    have hstep : evalFallSignal st b = (st, []) := by
      unfold evalFallSignal
      rw [hm]
      simp
    simp only [hstep, List.append_nil]
    exact ih st acc hm

/-- C3: while `maintenance_mode = true`, processing any sequence of
fall-detected readings emits zero FALL alerts (in fact no alerts at all)
and leaves the alarm state unchanged. -/
theorem maintenance_suppresses_fall (st : AlarmState) (signals : List Bool)
    (h : st.maintenanceMode = true) :
    (runFallSignals st signals).2 = [] ∧
    ((runFallSignals st signals).2.countP (fun a => a == AlertMsg.fall)) = 0 ∧
    (runFallSignals st signals).1 = st := by
  have heq := runFallSignals_maintenance signals st [] h
  unfold runFallSignals
  rw [heq]
  exact ⟨rfl, rfl, rfl⟩

/-- Witness for `maintenance_suppresses_fall`: three fall readings during
maintenance produce no FALL alert. -/
theorem maintenance_suppresses_fall_witness :
    (runFallSignals ⟨false, true⟩ [true, true, true]).2 = [] ∧
    ((runFallSignals ⟨false, true⟩ [true, true, true]).2.countP
        (fun a => a == AlertMsg.fall)) = 0 ∧
    (runFallSignals ⟨false, true⟩ [true, true, true]).1 = ⟨false, true⟩ :=
  maintenance_suppresses_fall ⟨false, true⟩ [true, true, true] rfl

/-! ## Spec-modelled Aggregation Store and the PDF overall summary -/

/-- A raw vital reading as stored by the server (spec §3 `VitalReading`);
vital fields may be absent. -/
structure Reading where
  ts : ℕ
  hr : Option ℚ
  spo2 : Option ℚ
  temp : Option ℚ
  fall : Bool

/-- Membership of a reading in slot `j` of a window starting at `start`
with slot width `w`: slots are contiguous, non-overlapping, fixed-width,
aligned to the window start (spec §4.2). -/
def inSlot (start w j : ℕ) (r : Reading) : Bool :=
  decide (start + j * w ≤ r.ts) && decide (r.ts < start + (j + 1) * w)

/-- Membership of a reading in the whole `n`-slot window. -/
def inWindow (start w n : ℕ) (r : Reading) : Bool :=
  decide (start ≤ r.ts) && decide (r.ts < start + n * w)

/-- Number of present (non-null) values of one vital field. -/
def fieldCount (f : Reading → Option ℚ) (rs : List Reading) : ℕ :=
  (rs.filterMap f).length

/-- Sum of the present values of one vital field. -/
def fieldSum (f : Reading → Option ℚ) (rs : List Reading) : ℚ :=
  (rs.filterMap f).sum

/-- Modelled from the spec: per-field slot average — the arithmetic mean of
present (non-null) values only; `null` when no value is present, never
zero (spec §4.2, numeric semantics). -/
def avgOf (f : Reading → Option ℚ) (rs : List Reading) : Option ℚ :=
  if fieldCount f rs = 0 then none
  else some (fieldSum f rs / (fieldCount f rs : ℚ))

/-- One slot aggregate as served to the frontend report
(`avg_hr`, `avg_spo2`, `avg_temp`, `falls`, `samples`). -/
structure Slot where
  avg_hr : Option ℚ
  avg_spo2 : Option ℚ
  avg_temp : Option ℚ
  falls : ℕ
  samples : ℕ

/-- Modelled from the spec: aggregate the readings of one slot; `samples`
counts every reading of the slot unconditionally (spec §4.2 `record`). -/
def mkSlot (rs : List Reading) : Slot :=
  { avg_hr := avgOf (fun r => r.hr) rs
    avg_spo2 := avgOf (fun r => r.spo2) rs
    avg_temp := avgOf (fun r => r.temp) rs
    falls := rs.countP (fun r => r.fall)
    samples := rs.length }

/-- An on-demand aggregation answer: slots in chronological order plus the
raw-sample count of the window. -/
structure WindowReport where
  slots : List Slot
  total_raw : ℕ

/-- Modelled from the spec: `aggregateWindow(duration, slotWidth)` — the
server-side Aggregation Store is not part of the frontend sources.  Spec
§4.2: partition the readings whose timestamp falls within the lookback
window into `n` contiguous fixed-width slots aligned to the window start,
aggregate each slot, and report the total number of raw readings. -/
def aggregateWindow (rs : List Reading) (start w n : ℕ) : WindowReport :=
  { slots := (List.range n).map (fun j => mkSlot (rs.filter (inSlot start w j)))
    total_raw := (rs.filter (inWindow start w n)).length }

/-- The overall-summary accumulation of `generatePDF` (script.js 533–543):
for each slot whose average is non-null, add `avg * samples` to the
numerator and `samples` to the denominator — note `samples`, not the
per-field count. -/
def pdfOverall (slots : List Slot) (avg : Slot → Option ℚ) : ℚ × ℕ :=
  slots.foldl (fun acc s =>
    match avg s with
    | some q => (acc.1 + q * (s.samples : ℚ), acc.2 + s.samples)
    | none => acc) (0, 0)

/-- `hC ? (oHR / hC).toFixed(1) : "N/A"` (script.js 541–543): the displayed
overall average, `none` standing for `"N/A"`; the `toFixed(1)` rounding is
abstracted, the quotient is exact. -/
def pdfOverallAvg (slots : List Slot) (avg : Slot → Option ℚ) : Option ℚ :=
  let p := pdfOverall slots avg
  if p.2 = 0 then none else some (p.1 / (p.2 : ℚ))

lemma pdfOverall_eq (avg : Slot → Option ℚ) (slots : List Slot) : ∀ (a : ℚ) (b : ℕ),
    slots.foldl (fun acc s =>
      match avg s with
      | some q => (acc.1 + q * (s.samples : ℚ), acc.2 + s.samples)
      | none => acc) (a, b)
    = (a + (slots.map (fun s =>
          match avg s with
          | some q => q * (s.samples : ℚ)
          | none => 0)).sum,
       b + (slots.map (fun s =>
          match avg s with
          | some _ => s.samples
          | none => 0)).sum) := by
  induction slots with
  | nil => intro a b; simp
  | cons s ss ih =>
    intro a b
    rw [List.foldl_cons, List.map_cons, List.map_cons, List.sum_cons, List.sum_cons]
    cases h : avg s with
    | none =>
      simp only [h]
      rw [ih a b, Prod.mk.injEq]
      exact ⟨by ring, by omega⟩
    | some q =>
      simp only [h]
      rw [ih (a + q * (s.samples : ℚ)) (b + s.samples), Prod.mk.injEq]
      exact ⟨by ring, by omega⟩

lemma sum_map_ite_count {M : Type} [AddCommMonoid M] (l : List ℕ) (p : ℕ → Bool) (c : M) :
    (l.map (fun j => if p j then c else 0)).sum = l.countP p • c := by
  induction l with
  | nil => simp
  | cons x xs ih =>
    rw [List.map_cons, List.sum_cons, List.countP_cons, ih]
    by_cases h : p x
    · simp only [h, if_pos]
      rw [add_nsmul, one_nsmul, add_comm]
    · simp [h]

lemma countP_inSlot (start w : ℕ) (r : Reading) : ∀ n : ℕ,
    (List.range n).countP (fun j => inSlot start w j r)
      = if inWindow start w n r then 1 else 0 := by
  intro n
  induction n with
  | zero =>
    simp [inWindow]
    split_ifs with h
    · omega
    · rfl
  | succ n ih =>
    rw [List.range_succ, List.countP_append, ih]
    have hsing : ([n].countP (fun j => inSlot start w j r))
        = if inSlot start w n r then 1 else 0 := by
      simp [List.countP_cons]
    rw [hsing]
    simp only [inSlot, inWindow, Bool.and_eq_true, decide_eq_true_eq, Nat.succ_mul,
      Nat.add_mul, Nat.one_mul]
    split_ifs <;> omega

lemma partition_sum {M : Type} [AddCommMonoid M] (g : Reading → M)
    (start w n : ℕ) (rs : List Reading) :
    ((List.range n).map (fun j => ((rs.filter (inSlot start w j)).map g).sum)).sum
      = ((rs.filter (inWindow start w n)).map g).sum := by
  induction rs with
  | nil => simp
  | cons r rs ih =>
    have hsplit : ∀ j : ℕ,
        (((r :: rs).filter (inSlot start w j)).map g).sum
          = (if inSlot start w j r then g r else 0)
            + ((rs.filter (inSlot start w j)).map g).sum := by
      intro j
      rw [List.filter_cons]
      split_ifs with h
      · simp [h]
      · simp [h]
    calc ((List.range n).map
            (fun j => (((r :: rs).filter (inSlot start w j)).map g).sum)).sum
        = ((List.range n).map (fun j =>
            (if inSlot start w j r then g r else 0)
              + ((rs.filter (inSlot start w j)).map g).sum)).sum := by
          exact congrArg _ (List.map_congr_left (fun j _ => hsplit j))
      _ = ((List.range n).map (fun j => if inSlot start w j r then g r else 0)).sum
            + ((List.range n).map
                (fun j => ((rs.filter (inSlot start w j)).map g).sum)).sum := by
          rw [← List.sum_map_add]
      _ = (if inWindow start w n r then g r else 0)
            + ((rs.filter (inWindow start w n)).map g).sum := by
          rw [ih, sum_map_ite_count, countP_inSlot]
          split_ifs <;> simp
      _ = (((r :: rs).filter (inWindow start w n)).map g).sum := by
          rw [List.filter_cons]
          split_ifs with h
          · simp [h]
          · simp [h]

lemma pdfOverall_spec (slots : List Slot) (avg : Slot → Option ℚ) :
    pdfOverall slots avg
      = ((slots.map (fun s =>
            match avg s with
            | some q => q * (s.samples : ℚ)
            | none => 0)).sum,
         (slots.map (fun s =>
            match avg s with
            | some _ => s.samples
            | none => 0)).sum) := by
  unfold pdfOverall
  rw [pdfOverall_eq]
  simp

lemma sum_map_one {α : Type} (l : List α) : (l.map (fun _ => (1:ℕ))).sum = l.length := by
  induction l with
  | nil => rfl
  | cons x xs ih => simp [ih, Nat.add_comm]

lemma fieldSum_eq_map_sum (f : Reading → Option ℚ) (l : List Reading) :
    fieldSum f l = (l.map (fun r => (f r).getD 0)).sum := by
  induction l with
  | nil => rfl
  | cons r rs ih =>
    unfold fieldSum at ih ⊢
    rw [List.filterMap_cons]
    cases h : f r with
    | none => simp [h, ih]
    | some q => simp [h, ih]

lemma fieldCount_of_present (f : Reading → Option ℚ) (l : List Reading)
    (h : ∀ r ∈ l, (f r).isSome) : fieldCount f l = l.length := by
  induction l with
  | nil => rfl
  | cons r rs ih =>
    unfold fieldCount at ih ⊢
    rw [List.filterMap_cons]
    cases hr : f r with
    | none =>
      have := h r (List.mem_cons_self r rs)
      rw [hr] at this
      simp at this
    | some q =>
      simp only [List.length_cons]
      rw [ih (fun x hx => h x (List.mem_cons_of_mem r hx))]

lemma samples_partition (rs : List Reading) (start w n : ℕ) :
    ((List.range n).map (fun j => (rs.filter (inSlot start w j)).length)).sum
      = (rs.filter (inWindow start w n)).length := by
  have hp := partition_sum (fun _ => (1:ℕ)) start w n rs
  simp only [sum_map_one] at hp
  exact hp

lemma fieldSum_partition (f : Reading → Option ℚ) (rs : List Reading) (start w n : ℕ) :
    ((List.range n).map (fun j => fieldSum f (rs.filter (inSlot start w j)))).sum
      = fieldSum f (rs.filter (inWindow start w n)) := by
  have hp := partition_sum (fun r => (f r).getD 0) start w n rs
  simp only [← fieldSum_eq_map_sum] at hp
  exact hp

lemma inSlot_le_inWindow (start w n j : ℕ) (hj : j < n) (r : Reading)
    (h : inSlot start w j r = true) : inWindow start w n r = true := by
  simp only [inSlot, inWindow, Bool.and_eq_true, decide_eq_true_eq] at h ⊢
  have hmul : (j + 1) * w ≤ n * w := Nat.mul_le_mul_right w hj
  omega

lemma num_term_of_present (f : Reading → Option ℚ) (l : List Reading)
    (h : ∀ r ∈ l, (f r).isSome) :
    (match avgOf f l with
     | some q => q * (l.length : ℚ)
     | none => 0) = fieldSum f l := by
  by_cases hc : fieldCount f l = 0
  · have hlen0 : l.length = 0 := by rw [← fieldCount_of_present f l h]; exact hc
    have hl : l = [] := List.length_eq_zero.mp hlen0
    subst hl
    rfl
  · unfold avgOf
    rw [if_neg hc]
    have hlen : (l.length : ℚ) = (fieldCount f l : ℚ) := by
      rw [fieldCount_of_present f l h]
    simp only [hlen]
    exact div_mul_cancel₀ _ (Nat.cast_ne_zero.mpr hc)

lemma den_term_of_present (f : Reading → Option ℚ) (l : List Reading)
    (h : ∀ r ∈ l, (f r).isSome) :
    (match avgOf f l with
     | some _ => l.length
     | none => 0) = l.length := by
  by_cases hc : fieldCount f l = 0
  · have hl : l.length = 0 := by rw [← fieldCount_of_present f l h]; exact hc
    unfold avgOf
    rw [if_pos hc, hl]
  · unfold avgOf
    rw [if_neg hc]

/-- C4 amended: every slot average recombines exactly — `avg_field`
multiplied by the count of present values equals the sum of the underlying
raw values — and the slots' sample counts sum to `total_raw`; the PDF
overall summary `Σ(avg×samples)/Σ(samples)` equals the mean of the present
raw values of the window whenever the field is present in every window
reading; with partial readings it is a `samples`-weighted mean that can
differ from the raw mean. -/
theorem aggregateWindow_pdf_summary (rs : List Reading) (start w n : ℕ) :
    (∀ (f : Reading → Option ℚ) (l : List Reading) (q : ℚ),
        avgOf f l = some q → q * (fieldCount f l : ℚ) = fieldSum f l) ∧
    ((aggregateWindow rs start w n).slots.map Slot.samples).sum
        = (aggregateWindow rs start w n).total_raw ∧
    ((∀ r ∈ rs, inWindow start w n r = true → r.hr.isSome) →
      pdfOverallAvg (aggregateWindow rs start w n).slots Slot.avg_hr
        = avgOf (fun r => r.hr) (rs.filter (inWindow start w n))) := by
  refine ⟨?_, ?_, ?_⟩
  · intro f l q h
    by_cases hc : fieldCount f l = 0
    · unfold avgOf at h
      rw [if_pos hc] at h
      exact absurd h (by simp)
    · unfold avgOf at h
      rw [if_neg hc] at h
      have hq := Option.some.inj h
      subst hq
      exact div_mul_cancel₀ _ (Nat.cast_ne_zero.mpr hc)
  · simp only [aggregateWindow]
    have hmap : (((List.range n).map
          (fun j => mkSlot (rs.filter (inSlot start w j)))).map Slot.samples)
        = (List.range n).map (fun j => (rs.filter (inSlot start w j)).length) := by
      rw [List.map_map]; rfl
    rw [hmap, samples_partition]
  · intro hp
    have hpres : ∀ j, j < n → ∀ r ∈ rs.filter (inSlot start w j), r.hr.isSome := by
      intro j hj r hrmem
      obtain ⟨hmem, hslot⟩ := List.mem_filter.mp hrmem
      exact hp r hmem (inSlot_le_inWindow start w n j hj r hslot)
    have hWpres : ∀ r ∈ rs.filter (inWindow start w n), r.hr.isSome := by
      intro r hrmem
      obtain ⟨hmem, hwin⟩ := List.mem_filter.mp hrmem
      exact hp r hmem hwin
    simp only [pdfOverallAvg, aggregateWindow]
    rw [pdfOverall_spec, List.map_map, List.map_map]
    have hnum : ((List.range n).map
        ((fun s => match Slot.avg_hr s with
            | some q => q * (s.samples : ℚ)
            | none => 0)
          ∘ fun j => mkSlot (rs.filter (inSlot start w j))))
        = (List.range n).map
            (fun j => fieldSum (fun r => r.hr) (rs.filter (inSlot start w j))) := by
      refine List.map_congr_left ?_
      intro j hj
      exact num_term_of_present (fun r => r.hr) (rs.filter (inSlot start w j))
        (hpres j (List.mem_range.mp hj))
    have hden : ((List.range n).map
        ((fun s => match Slot.avg_hr s with
            | some _ => s.samples
            | none => 0)
          ∘ fun j => mkSlot (rs.filter (inSlot start w j))))
        = (List.range n).map
            (fun j => (rs.filter (inSlot start w j)).length) := by
      refine List.map_congr_left ?_
      intro j hj
      exact den_term_of_present (fun r => r.hr) (rs.filter (inSlot start w j))
        (hpres j (List.mem_range.mp hj))
    rw [hnum, hden, fieldSum_partition, samples_partition]
    unfold avgOf
    rw [fieldCount_of_present (fun r => r.hr) (rs.filter (inWindow start w n)) hWpres]

/-- Readings for the C4 counterexample: the first slot holds one reading
with heart rate 100 and one partial reading without a heart rate, the
second slot one reading with heart rate 70. -/
def cxReadings : List Reading :=
  [ ⟨0, some 100, none, none, false⟩
  , ⟨1, none, some 97, none, false⟩
  , ⟨10, some 70, none, none, false⟩ ]

/-- C4 counterexample: the PDF overall summary weights slot averages by the
slot's total `samples`, so with a partial reading it computes
`(100·2 + 70·1)/3 = 90` while the mean of the present raw heart rates is
`(100 + 70)/2 = 85` — the claimed equality with the raw mean fails. -/
theorem pdf_overall_ne_raw_mean :
    pdfOverallAvg (aggregateWindow cxReadings 0 10 2).slots Slot.avg_hr = some 90 ∧
    avgOf (fun r => r.hr) (cxReadings.filter (inWindow 0 10 2)) = some 85 ∧
    pdfOverallAvg (aggregateWindow cxReadings 0 10 2).slots Slot.avg_hr
      ≠ avgOf (fun r => r.hr) (cxReadings.filter (inWindow 0 10 2)) := by
  have h1 : (aggregateWindow cxReadings 0 10 2).slots
      = [ mkSlot [⟨0, some 100, none, none, false⟩, ⟨1, none, some 97, none, false⟩]
        , mkSlot [⟨10, some 70, none, none, false⟩] ] := by
    simp [aggregateWindow, cxReadings, List.range_succ, List.range_zero, inSlot,
      List.filter_cons, List.filter_nil]
  have h2 : mkSlot [⟨0, some 100, none, none, false⟩, ⟨1, none, some 97, none, false⟩]
      = ⟨some 100, some 97, none, 0, 2⟩ := by
    simp [mkSlot, avgOf, fieldCount, fieldSum, List.filterMap_cons, List.filterMap_nil,
      List.countP_cons, List.countP_nil]
  have h3 : mkSlot [⟨10, some 70, none, none, false⟩]
      = ⟨some 70, none, none, 0, 1⟩ := by
    simp [mkSlot, avgOf, fieldCount, fieldSum, List.filterMap_cons, List.filterMap_nil,
      List.countP_cons, List.countP_nil]
  have h90 : pdfOverallAvg (aggregateWindow cxReadings 0 10 2).slots Slot.avg_hr
      = some 90 := by
    rw [h1, h2, h3]
    simp [pdfOverallAvg, pdfOverall]
    norm_num
  have hfil : cxReadings.filter (inWindow 0 10 2) = cxReadings := by
    simp [cxReadings, inWindow, List.filter_cons, List.filter_nil]
  have h85 : avgOf (fun r => r.hr) (cxReadings.filter (inWindow 0 10 2)) = some 85 := by
    rw [hfil]
    simp [avgOf, fieldCount, fieldSum, cxReadings, List.filterMap_cons, List.filterMap_nil]
    norm_num
  refine ⟨h90, h85, ?_⟩
  rw [h90, h85]
  norm_num

/-- Fully-present readings witnessing `aggregateWindow_pdf_summary`. -/
def wReadings : List Reading :=
  [ ⟨0, some 100, some 98, some 37, false⟩
  , ⟨10, some 70, some 96, some 36, true⟩ ]

/-- Witness for `aggregateWindow_pdf_summary`: on a window whose readings
all carry a heart rate, the sample counts add up to `total_raw`, the PDF
overall average equals the raw mean, and a concrete slot average
recombines to its sum. -/
theorem aggregateWindow_pdf_summary_witness :
    ((aggregateWindow wReadings 0 10 2).slots.map Slot.samples).sum
        = (aggregateWindow wReadings 0 10 2).total_raw ∧
    pdfOverallAvg (aggregateWindow wReadings 0 10 2).slots Slot.avg_hr
        = avgOf (fun r => r.hr) (wReadings.filter (inWindow 0 10 2)) ∧
    (85 : ℚ) * (fieldCount (fun r => r.hr) wReadings : ℚ)
        = fieldSum (fun r => r.hr) wReadings := by
  have h := aggregateWindow_pdf_summary wReadings 0 10 2
  have h85 : avgOf (fun r => r.hr) wReadings = some 85 := by
    simp [avgOf, fieldCount, fieldSum, wReadings, List.filterMap_cons, List.filterMap_nil]
    norm_num
  exact ⟨h.2.1, h.2.2 (by decide), h.1 (fun r => r.hr) wReadings 85 h85⟩

/-! ## Table rendering: 1-based serial numbers
(script.js `generatePDF` autoTable body, `renderHistory`) -/

/-- One body row of the PDF slot table (script.js 584–592): `S.No.` is the
0-based map index plus one; averages render as em-dash when null. -/
structure PdfRow where
  serial : ℕ
  hrCell : String
  spo2Cell : String
  tempCell : String
  falls : ℕ
  samples : ℕ
deriving DecidableEq

/-- `[i + 1, range, avg ?? "—", …]` for the slot at index `i`. -/
def pdfRow (i : ℕ) (s : Slot) : PdfRow :=
  { serial := i + 1
    hrCell := histCell s.avg_hr
    spo2Cell := histCell s.avg_spo2
    tempCell := histCell s.avg_temp
    falls := s.falls
    samples := s.samples }

/-- The autoTable body: `slots.map((s, i) => [i + 1, …])`. -/
def pdfBody (slots : List Slot) : List PdfRow :=
  slots.enum.map (fun p => pdfRow p.1 p.2)

/-- One row of the history summary payload (GET `/history-summary`). -/
structure HistRow where
  timestamp : String
  heart_rate : Option ℚ
  spo2 : Option ℚ
  temp : Option ℚ
  fall_detected : Bool

/-- One rendered row of the history table (script.js 431–439). -/
structure HistRendered where
  serial : ℕ
  timestamp : String
  hrCell : String
  spo2Cell : String
  tempCell : String
  fallCell : String
deriving DecidableEq

/-- Render the history row at 0-based index `i`: serial `i + 1`, cells with
em-dash placeholders for absent values. -/
def histRendered (i : ℕ) (r : HistRow) : HistRendered :=
  { serial := i + 1
    timestamp := r.timestamp
    hrCell := histCell r.heart_rate
    spo2Cell := histCell r.spo2
    tempCell := histCell r.temp
    fallCell := if r.fall_detected then "YES" else "No" }

/-- `renderHistory(rows)` (script.js 423–442): `rows.map((r, i) => …)`. -/
def renderHistory (rows : List HistRow) : List HistRendered :=
  rows.enum.map (fun p => histRendered p.1 p.2)

/-- C7: both displayed tables list exactly one row per input element in the
input (chronological) order, and the row at 0-based index `i` carries the
1-based serial `i + 1`. -/
theorem table_serials (slots : List Slot) (rows : List HistRow) (i : ℕ)
    (h1 : i < (pdfBody slots).length) (h2 : i < (renderHistory rows).length)
    (h3 : i < slots.length) (h4 : i < rows.length) :
    (pdfBody slots).length = slots.length ∧
    (renderHistory rows).length = rows.length ∧
    (pdfBody slots)[i] = pdfRow i (slots.get ⟨i, h3⟩) ∧
    ((pdfBody slots)[i]).serial = i + 1 ∧
    (renderHistory rows)[i] = histRendered i (rows.get ⟨i, h4⟩) ∧
    ((renderHistory rows)[i]).serial = i + 1 := by
  refine ⟨?_, ?_, ?_, ?_, ?_, ?_⟩
  · simp [pdfBody]
  · simp [renderHistory]
  · simp [pdfBody, List.getElem_map, List.getElem_enum]
  · simp [pdfBody, List.getElem_map, List.getElem_enum, pdfRow]
  · simp [renderHistory, List.getElem_map, List.getElem_enum]
  · simp [renderHistory, List.getElem_map, List.getElem_enum, histRendered]

/-- Witness for `table_serials`: in two-row tables the second row shows
serial 2. -/
theorem table_serials_witness :
    ((pdfBody [⟨none, none, none, 0, 0⟩, ⟨some 80, none, none, 1, 2⟩]).get
        ⟨1, by simp [pdfBody]⟩).serial = 2 ∧
    ((renderHistory
        [⟨"t0", none, none, none, false⟩, ⟨"t1", some 75, some 98, some 37, true⟩]).get
        ⟨1, by simp [renderHistory]⟩).serial = 2 := by
  have h := table_serials [⟨none, none, none, 0, 0⟩, ⟨some 80, none, none, 1, 2⟩]
    [⟨"t0", none, none, none, false⟩, ⟨"t1", some 75, some 98, some 37, true⟩] 1
    (by simp [pdfBody]) (by simp [renderHistory]) (by simp) (by simp)
  exact ⟨by simpa using h.2.2.2.1, by simpa using h.2.2.2.2.2⟩

end HealthMonitor
